import Mathlib

/-!
Verification development for the agricultural dashboard / map repository
(`dashboard.py` and `map_visualization.py`).

The two source files are presentation layers over an external
`AgriculturalDataManager`.  The computational contracts embedded here are:

* the prepared feature table and its projections (`create_data_sources`),
* the selection-change filter callbacks (`create_yield_history_plot`,
  `create_stress_matrix`, `create_yield_prediction_plot`),
* the stress-matrix binning / grouping / normalisation,
* the per-parcel yield trend fit (`_calculate_yield_trend`),
* the risk-heatmap min-max normalisation (`add_risk_heatmap`),
* the popup crop formatter (`_format_recent_crops`).

Numeric columns are embedded as rational numbers (exact arithmetic); dates
are embedded as integers (a calendar date ordinal: the JavaScript callbacks
compare dates only through their numeric value, and `_calculate_yield_trend`
reduces dates to their calendar year before use).
-/

/-! ## Data model -/

/-- one row of the prepared feature table produced by
`data_manager.prepare_features()`; column names follow the source. -/
structure FeatureRow where
  parcelle_id : String
  date : Int
  latitude : ℚ
  longitude : ℚ
  rendement_estime : ℚ
  ndvi : ℚ
  temperature : ℚ
  stress_hydrique : ℚ
  culture : String
deriving DecidableEq

/-- one row of the yield sub-table `features[['parcelle_id','date','rendement_estime']]`
built in `create_data_sources`. -/
structure YieldRow where
  parcelle_id : String
  date : Int
  rendement_estime : ℚ
deriving DecidableEq

/-- one row of the NDVI sub-table `features[['parcelle_id','date','ndvi']]`
built in `create_data_sources`. -/
structure NdviRow where
  parcelle_id : String
  date : Int
  ndvi : ℚ
deriving DecidableEq

/-- projection of a feature row onto the yield sub-table columns. -/
def toYieldRow (r : FeatureRow) : YieldRow :=
  ⟨r.parcelle_id, r.date, r.rendement_estime⟩

/-- projection of a feature row onto the NDVI sub-table columns. -/
def toNdviRow (r : FeatureRow) : NdviRow :=
  ⟨r.parcelle_id, r.date, r.ndvi⟩

/-- one row of the manager's `yield_history` table as `_calculate_yield_trend`
uses it.  The function immediately reduces the date column to its calendar
year (`ph['date'] = ph['date'].dt.year`), so the embedded record stores that
year directly; two records with the same `date` model two source rows whose
dates fall in the same calendar year. -/
structure HistRec where
  parcelle_id : String
  date : Int
  rendement_estime : ℚ
deriving DecidableEq

/-- result record of `_calculate_yield_trend`. -/
structure TrendResult where
  slope : ℚ
  intercept : ℚ
  variation_moyenne : ℚ
deriving DecidableEq

/-! ## Generic helpers: keep-first deduplication by key -/

/-- deduplication by key with an accumulator of already-seen keys; keeps the
first record carrying each key, like pandas `drop_duplicates` (default
`keep='first'`). -/
def dedupByKeyAux {α κ : Type} [DecidableEq κ] (key : α → κ) (seen : List κ) :
    List α → List α
  | [] => []
  | r :: rs =>
    if key r ∈ seen then dedupByKeyAux key seen rs
    else r :: dedupByKeyAux key (key r :: seen) rs

/-- keep the first record for each key value. -/
def dedupByKey {α κ : Type} [DecidableEq κ] (key : α → κ) (l : List α) : List α :=
  dedupByKeyAux key [] l

/-- number of distinct values of a list, as pandas `Series.nunique()`. -/
def nunique (l : List ℚ) : Nat := (dedupByKey (fun x => x) l).length

/-! ## Stress-matrix binning, grouping and normalisation
(`create_stress_matrix`) -/

/-- temperature bin of `create_stress_matrix`:
`(temperature // 5) * 5`, a 5-degree floor bin. -/
def tempBin (t : ℚ) : ℚ := (⌊t / 5⌋ : ℚ) * 5

/-- water-stress bin of `create_stress_matrix`:
`(stress_hydrique // 0.1) * 0.1`, a 0.1-wide floor bin. -/
def stressBin (s : ℚ) : ℚ := (⌊s / (1/10)⌋ : ℚ) * (1/10)

/-- grouping key of `groupby(['parcelle_id', 'temp_bin', 'stress_bin'])`. -/
def stressKey (r : FeatureRow) : String × ℚ × ℚ :=
  (r.parcelle_id, tempBin r.temperature, stressBin r.stress_hydrique)

/-- the distinct group keys of the stress matrix.  (pandas lists group keys
in sorted order; the per-group count and the normalisation below do not
depend on that order.) -/
def stressGroups (rows : List FeatureRow) : List (String × ℚ × ℚ) :=
  dedupByKey (fun k => k) (rows.map stressKey)

/-- `groupby(...).size()`: the number of rows falling in group `k`. -/
def groupCount (rows : List FeatureRow) (k : String × ℚ × ℚ) : Nat :=
  rows.countP (fun r => decide (stressKey r = k))

/-- `stress_matrix['count'].max()`: the largest group size. -/
def maxCount (rows : List FeatureRow) : Nat :=
  ((stressGroups rows).map (groupCount rows)).foldr max 0

/-- `normalized_count = count / max_count` for group `k`. -/
def normalizedCount (rows : List FeatureRow) (k : String × ℚ × ℚ) : ℚ :=
  (groupCount rows k : ℚ) / (maxCount rows : ℚ)

/-- a feature row that only carries a parcel id; all numeric columns are 0.
Used to build concrete stress-matrix datasets. -/
def plainRow (p : String) : FeatureRow := ⟨p, 0, 0, 0, 0, 0, 0, 0, ""⟩

/-- concrete dataset whose three groups have sizes 2, 4 and 8. -/
def exStressRows : List FeatureRow :=
  [plainRow "A", plainRow "A",
    plainRow "B", plainRow "B", plainRow "B", plainRow "B",
    plainRow "C", plainRow "C", plainRow "C", plainRow "C",
    plainRow "C", plainRow "C", plainRow "C", plainRow "C"]

/-! ## Interactive filter contract (`create_yield_history_plot` callback)

The CustomJS callback resets the filtered source, collects the indices of
the rows of the full source whose `parcelle_id` equals the selected value,
sorts those indices ascending by date (a stable sort), and copies every
column at those indices.  This is a filter followed by a stable sort by
date, embedded with `List.insertionSort` (stable). -/

/-- date ordering used by the yield-history callback sort. -/
def yieldDateLe (a b : YieldRow) : Prop := a.date ≤ b.date

instance : DecidableRel yieldDateLe := fun a b => Int.decLe a.date b.date

instance : IsTotal YieldRow yieldDateLe := ⟨fun a b => le_total a.date b.date⟩

instance : IsTrans YieldRow yieldDateLe := ⟨fun _ _ _ h1 h2 => le_trans h1 h2⟩

/-- the selection-change filter of `create_yield_history_plot`: keep the
rows of the full source whose parcel matches the selection, stably sorted
ascending by date. -/
def filterYieldHistory (full : List YieldRow) (sel : String) : List YieldRow :=
  List.insertionSort yieldDateLe (full.filter (fun r => r.parcelle_id == sel))

/-- full dataset of the spec example: parcels A and B, A's dates in order
`[3, 1, 2]`. -/
def exFullYield : List YieldRow :=
  [⟨"A", 3, 9⟩, ⟨"B", 1, 5⟩, ⟨"A", 1, 7⟩, ⟨"A", 2, 8⟩]

/-! ## Trend estimator (`_calculate_yield_trend`) -/

/-- the parcel filter at the top of `_calculate_yield_trend`. -/
def trendFiltered (hist : List HistRec) (pid : String) : List HistRec :=
  hist.filter (fun r => r.parcelle_id == pid)

/-- year ordering used by `sort_values(by='date')` after the year
conversion. -/
def histYearLe (a b : HistRec) : Prop := a.date ≤ b.date

instance : DecidableRel histYearLe := fun a b => Int.decLe a.date b.date

instance : IsTotal HistRec histYearLe := ⟨fun a b => le_total a.date b.date⟩

instance : IsTrans HistRec histYearLe := ⟨fun _ _ _ h1 h2 => le_trans h1 h2⟩

/-- the regression data: the parcel's history, deduplicated to the first
record of each calendar year (`drop_duplicates(subset=['date'])`) and
sorted by year.  After deduplication all years are distinct, so the sort
has a unique result. -/
def trendData (hist : List HistRec) (pid : String) : List HistRec :=
  List.insertionSort histYearLe (dedupByKey (fun r => r.date) (trendFiltered hist pid))

/-- the regression predictor `X`: the years, as rationals. -/
def trendXs (hist : List HistRec) (pid : String) : List ℚ :=
  (trendData hist pid).map (fun r => (r.date : ℚ))

/-- the regression response `y`: the yields. -/
def trendYs (hist : List HistRec) (pid : String) : List ℚ :=
  (trendData hist pid).map (fun r => r.rendement_estime)

/-- arithmetic mean of a list, as pandas `Series.mean()`. -/
def mean (l : List ℚ) : ℚ := l.sum / (l.length : ℚ)

/-- sum of pairwise products of two columns. -/
def sumXY (xs ys : List ℚ) : ℚ := (List.zipWith (fun x y => x * y) xs ys).sum

/-- sum of squares of a column. -/
def sumSq (xs : List ℚ) : ℚ := (xs.map (fun x => x * x)).sum

/-- the slope fitted by `LinearRegression().fit(X, y)` for a single
predictor, via the normal equations:
`(n·Σxy − Σx·Σy) / (n·Σx² − (Σx)²)`.  When the predictor is constant the
denominator is zero and rational division yields 0, which agrees with the
minimum-norm least-squares coefficient sklearn computes on centred data. -/
def codeSlope (xs ys : List ℚ) : ℚ :=
  ((xs.length : ℚ) * sumXY xs ys - xs.sum * ys.sum)
    / ((xs.length : ℚ) * sumSq xs - xs.sum * xs.sum)

/-- embedding of `_calculate_yield_trend`: filter the yield history to the
parcel; if the filtered history is empty or has fewer than two distinct
yield values, return the zero default; otherwise deduplicate by year, sort,
and fit the single-predictor linear regression, with
`variation = slope / y.mean()` guarded by `y.mean() != 0`. -/
def calculate_yield_trend (hist : List HistRec) (pid : String) : TrendResult :=
  let ph := trendFiltered hist pid
  if ph = [] ∨ nunique (ph.map (fun r => r.rendement_estime)) < 2 then
    ⟨0, 0, 0⟩
  else
    let xs := trendXs hist pid
    let ys := trendYs hist pid
    let slope := codeSlope xs ys
    ⟨slope, mean ys - slope * mean xs,
      if mean ys ≠ 0 then slope / mean ys else 0⟩

/-- population covariance of two columns, written as the spec states it
(mean of centred products). -/
def covSpec (xs ys : List ℚ) : ℚ :=
  mean (List.zipWith (fun x y => (x - mean xs) * (y - mean ys)) xs ys)

/-- population variance of a column, written as the spec states it. -/
def varSpec (xs : List ℚ) : ℚ :=
  mean (xs.map (fun x => (x - mean xs) ^ 2))

/-- the spec's closed-form OLS slope `cov(x,y) / var(x)`. -/
def olsSlope (xs ys : List ℚ) : ℚ := covSpec xs ys / varSpec xs

/-- the spec's closed-form OLS intercept `mean(y) − slope·mean(x)`. -/
def olsIntercept (xs ys : List ℚ) : ℚ := mean ys - olsSlope xs ys * mean xs

/-- the spec's trend example: parcel P1 with years 2020..2022 and yields
5, 6, 7. -/
def exTrendHist : List HistRec :=
  [⟨"P1", 2020, 5⟩, ⟨"P1", 2021, 6⟩, ⟨"P1", 2022, 7⟩]

/-- a history with a single calendar year but two distinct yield values:
it passes the `nunique < 2` guard yet leaves only one regression point. -/
def oneYearTwoYields : List HistRec :=
  [⟨"P", 2020, 5⟩, ⟨"P", 2020, 6⟩]

/-- a constant-yield history over two years. -/
def constYieldHist : List HistRec :=
  [⟨"P", 2020, 5⟩, ⟨"P", 2021, 5⟩]

/-! ## Missing-column handling (`create_data_sources`,
`create_stress_matrix`, `add_yield_history_layer`)

Each of these operations either checks its required columns explicitly and
returns `None` with a printed message, or raises inside a `try` block whose
`except` prints the error and yields `None`.  They are embedded as total
functions returning an optional result together with the list of emitted
diagnostics. -/

/-- a tabular input: the column names present, and the row data. -/
structure FeaturesTable where
  cols : List String
  rows : List FeatureRow
deriving DecidableEq

/-- columns the dashboard's `create_data_sources` projections require. -/
def requiredSourceCols : List String :=
  ["parcelle_id", "date", "rendement_estime", "ndvi"]

/-- embedding of the dashboard's `create_data_sources`: project the yield
and NDVI sub-tables; a missing required column raises a pandas `KeyError`,
which the surrounding `except` turns into a printed diagnostic and no
sources. -/
def create_data_sources (t : FeaturesTable) :
    Option (List YieldRow × List NdviRow) × List String :=
  if ∀ c ∈ requiredSourceCols, c ∈ t.cols then
    (some (t.rows.map toYieldRow, t.rows.map toNdviRow), [])
  else
    (none, ["Error preparing data sources: missing column"])

/-- embedding of `create_stress_matrix`: its explicit guard checks the
`temperature` and `stress_hydrique` columns, prints a message and returns
`None` when one is absent; otherwise it builds the binned, grouped and
normalised matrix. -/
def create_stress_matrix (t : FeaturesTable) :
    Option (List ((String × ℚ × ℚ) × ℚ)) × List String :=
  if "temperature" ∈ t.cols ∧ "stress_hydrique" ∈ t.cols then
    (some ((stressGroups t.rows).map (fun k => (k, normalizedCount t.rows k))), [])
  else
    (none,
      ["Les colonnes temperature et stress_hydrique sont necessaires pour la matrice de stress."])

/-- columns `add_yield_history_layer` requires before building the layer. -/
def requiredLayerCols : List String :=
  ["parcelle_id", "latitude", "longitude", "rendement_estime", "date"]

/-- the body of `add_yield_history_layer` up to its column validation: the
first missing required column raises a `KeyError`. -/
def add_yield_history_layer_inner (t : FeaturesTable) : Except String Unit :=
  match requiredLayerCols.find? (fun c => decide (c ∉ t.cols)) with
  | some c => Except.error ("Missing required column: " ++ c)
  | none => Except.ok ()

/-- embedding of `add_yield_history_layer`: the `except` handler converts
any raised error into a printed diagnostic and a `None` result. -/
def add_yield_history_layer (t : FeaturesTable) : Option Unit × List String :=
  match add_yield_history_layer_inner t with
  | Except.error e => (none, ["Error adding yield history layer: " ++ e])
  | Except.ok u => (some u, [])

/-! ## Risk heatmap normalisation (`add_risk_heatmap`)

The weight of each point is
`0.1 + (avg_risk_index − min) / (max − min) * 0.9`.  The division is an
IEEE floating-point division with no guard: when every risk value is equal
the denominator is zero and numpy produces NaN (0/0).  The embedding makes
the undefinedness explicit by returning `none` exactly when the denominator
is zero. -/

/-- minimum of a risk column, as pandas `Series.min()` on a non-empty
column. -/
def riskMin : List ℚ → ℚ
  | [] => 0
  | x :: xs => xs.foldl min x

/-- maximum of a risk column, as pandas `Series.max()` on a non-empty
column. -/
def riskMax : List ℚ → ℚ
  | [] => 0
  | x :: xs => xs.foldl max x

/-- the heatmap weights computed by `add_risk_heatmap`; `none` stands for
the NaN produced by the unguarded zero division when `max = min`. -/
def add_risk_heatmap_weights (risks : List ℚ) : List (Option ℚ) :=
  risks.map (fun v =>
    if riskMax risks - riskMin risks = 0 then none
    else some (1/10 + (v - riskMin risks) / (riskMax risks - riskMin risks) * (9/10)))

/-! ## Popup crop formatter (`_format_recent_crops`) -/

/-- the columns of the history frame `_format_recent_crops` reads: the
date (here its calendar year, as in the spec examples) and the crop. -/
structure CropRec where
  date : Int
  culture : String
deriving DecidableEq

/-- reverse-chronological ordering used by
`sort_values(by='date', ascending=False)`. -/
def cropDateGe (a b : CropRec) : Prop := b.date ≤ a.date

instance : DecidableRel cropDateGe := fun a b => Int.decLe b.date a.date

instance : IsTotal CropRec cropDateGe := ⟨fun a b => (le_total b.date a.date)⟩

instance : IsTrans CropRec cropDateGe := ⟨fun _ _ _ h1 h2 => le_trans h2 h1⟩

/-- the deduplicated (`drop_duplicates(subset=['culture','date'])`,
keep-first) history sorted newest-first. -/
def recentCropsSorted (history : List CropRec) : List CropRec :=
  List.insertionSort cropDateGe (dedupByKey (fun r => (r.culture, r.date)) history)

/-- embedding of `_format_recent_crops`: an empty history raises and the
handler returns `[]`; otherwise each record becomes `"year: crop"`,
newest first. -/
def format_recent_crops (history : List CropRec) : List String :=
  if history = [] then []
  else (recentCropsSorted history).map (fun r => toString r.date ++ ": " ++ r.culture)

/-! ## Presentation state: callbacks replace, upstream stays intact -/

/-- the pair of Bokeh sources behind the yield-history plot: the immutable
full source and the selection-driven filtered source. -/
structure DashboardState where
  full_yield_source : List YieldRow
  yield_source : List YieldRow
deriving DecidableEq

/-- one run of the `create_yield_history_plot` CustomJS callback: reset the
filtered columns to empty, then push the parcel's rows sorted by date.  The
full source is only read. -/
def run_yield_callback (sel : String) (s : DashboardState) : DashboardState :=
  { full_yield_source := s.full_yield_source
    yield_source := ([] : List YieldRow) ++ filterYieldHistory s.full_yield_source sel }

/-- one row of the stress-matrix source built by `create_stress_matrix`. -/
structure StressRow where
  parcelle_id : String
  temp_bin : ℚ
  stress_bin : ℚ
  count : ℕ
  normalized_count : ℚ
deriving DecidableEq

/-- the three columns the stress-matrix callback writes
(`temp_bin`, `stress_bin`, `normalized_count`). -/
structure StressCell where
  temp_bin : ℚ
  stress_bin : ℚ
  normalized_count : ℚ
deriving DecidableEq

/-- projection of a full stress-matrix row onto the columns the callback
pushes. -/
def toStressCell (r : StressRow) : StressCell :=
  ⟨r.temp_bin, r.stress_bin, r.normalized_count⟩

/-- the pair of Bokeh sources behind the stress matrix. -/
structure StressState where
  full_stress_source : List StressRow
  stress_source : List StressCell
deriving DecidableEq

/-- one run of the `create_stress_matrix` CustomJS callback: reset the
written columns, then push the selected parcel's bins (no date sort: bins
have no date axis).  The full source is only read. -/
def run_stress_callback (sel : String) (s : StressState) : StressState :=
  { full_stress_source := s.full_stress_source
    stress_source :=
      ([] : List StressCell)
        ++ (s.full_stress_source.filter (fun r => r.parcelle_id == sel)).map toStressCell }

/-- the manager state `_calculate_yield_trend` reads. -/
structure ManagerState where
  yield_history : List HistRec
deriving DecidableEq

/-- `_calculate_yield_trend` as an operation on the manager: it takes a
`.copy()` of the filtered history and mutates only that copy (the in-place
year conversion), so the manager comes back unchanged beside the result. -/
def run_calculate_yield_trend (m : ManagerState) (pid : String) :
    ManagerState × TrendResult :=
  (m, calculate_yield_trend m.yield_history pid)

/-! ## Binary64 semantics of the stress-matrix bin values

`create_stress_matrix` computes `(temperature // 5) * 5` and
`(stress_hydrique // 0.1) * 0.1` on pandas float64 columns.  The
exact-rational `tempBin`/`stressBin` above serve as grouping keys (the
grouping and normalisation do not depend on the key idealisation), but the
bin values the program produces are IEEE binary64 numbers, and the float
rounding is observable in them.  A binary64 number is embedded as an exact
rational `m * 2^e` with a significand of at most 53 bits.  Floor division
returns the floor of the exact quotient (CPython computes exactly this via
`fmod`; numpy's floor-of-rounded-quotient agrees at every input considered
here), and the closing multiplication rounds the product back to 53
significant bits, round-to-nearest, ties-to-even. -/

/-- a binary64 value `m * 2^e`, given by its exact integer significand and
exponent. -/
structure B64 where
  m : ℤ
  e : ℤ
deriving DecidableEq

/-- the exact rational value of a binary64 number. -/
def B64.toRat (x : B64) : ℚ := (x.m : ℚ) * 2 ^ x.e

/-- how many low bits a significand exceeds 53 bits by; the fuel 64 covers
any product of two 53-bit significands. -/
def excessBits : ℕ → ℤ → ℕ
  | 0, _ => 0
  | fuel+1, m => if m.natAbs < 2 ^ 53 then 0 else excessBits fuel (m / 2) + 1

/-- round `m / 2^k` to the nearest integer, ties to even.  Used with
non-negative `m`, where Lean's Euclidean `/` and `%` coincide with plain
truncation and a remainder in `[0, 2^k)`. -/
def roundShift (m : ℤ) (k : ℕ) : ℤ :=
  let d : ℤ := 2 ^ k
  let q := m / d
  let r := m % d
  if 2 * r < d then q else if d < 2 * r then q + 1 else if q % 2 = 0 then q else q + 1

/-- binary64 multiplication: multiply the significands exactly, then round
the product back to 53 bits (round-to-nearest, ties-to-even). -/
def B64.mul (x y : B64) : B64 :=
  let p := x.m * y.m
  let k := excessBits 64 p
  ⟨roundShift p k, x.e + y.e + k⟩

/-- Python float floor division `x // y`: the floor of the exact quotient,
an integer that is exactly representable for the small quotients arising
in the binning. -/
def B64.floorDiv (x y : B64) : B64 := ⟨⌊x.toRat / y.toRat⌋, 0⟩

/-- the binary64 value of the literal `5` (exact). -/
def fl_5 : B64 := ⟨5, 0⟩

/-- the binary64 value of the literal `22` (exact). -/
def fl_22 : B64 := ⟨22, 0⟩

/-- the binary64 value of the literal `20` (exact). -/
def fl_20 : B64 := ⟨20, 0⟩

/-- the binary64 value of the literal `0.1`: `3602879701896397 / 2^55`,
slightly above one tenth. -/
def fl_0_1 : B64 := ⟨3602879701896397, -55⟩

/-- the binary64 value of the literal `0.3`: `5404319552844595 / 2^54`,
slightly below three tenths. -/
def fl_0_3 : B64 := ⟨5404319552844595, -54⟩

/-- the binary64 value of the literal `0.34`: `6124895493223875 / 2^54`. -/
def fl_0_34 : B64 := ⟨6124895493223875, -54⟩

/-- the binary64 value of the literal `0.2`: `3602879701896397 / 2^54`. -/
def fl_0_2 : B64 := ⟨3602879701896397, -54⟩

/-- `(temperature // 5) * 5` in binary64 arithmetic. -/
def tempBin64 (t : B64) : B64 := (t.floorDiv fl_5).mul fl_5

/-- `(stress_hydrique // 0.1) * 0.1` in binary64 arithmetic. -/
def stressBin64 (s : B64) : B64 := (s.floorDiv fl_0_1).mul fl_0_1

/-! # Theorems -/

/-- shifting by zero bits rounds nothing. -/
theorem roundShift_zero (m : ℤ) : roundShift m 0 = m := by
  simp [roundShift]

/-- a significand already within 53 bits has no excess bits. -/
theorem excessBits_eq_zero (m : ℤ) (h : m.natAbs < 2 ^ 53) : excessBits 64 m = 0 := by
  show excessBits (63 + 1) m = 0
  rw [excessBits, if_pos h]

/-- binary64 multiplication of two exact small integers is exact. -/
theorem mul_int_exact (q k : ℤ) (h : (q * k).natAbs < 2 ^ 53) :
    (B64.mul ⟨q, 0⟩ ⟨k, 0⟩).toRat = ((q * k : ℤ) : ℚ) := by
  simp only [B64.mul, excessBits_eq_zero _ h, roundShift_zero]
  norm_num [B64.toRat]

/-- counterexample to C4 as stated: in the program's binary64 arithmetic
the boundary stress value `0.3` does not bin to itself — `0.3 // 0.1` is
`2.0` (the double 0.3 is below three times the double 0.1), so it bins to
the double `0.2`; and `0.34` bins to `3 * 0.1 = 0.30000000000000004`, the
double above `0.3`, not to `0.3`. -/
theorem stress_binning_boundary_counterexample :
    (stressBin64 fl_0_3).toRat = fl_0_2.toRat
    ∧ (stressBin64 fl_0_3).toRat ≠ fl_0_3.toRat
    ∧ (stressBin64 fl_0_34).toRat = (5404319552844596 : ℚ) / 2 ^ 54
    ∧ (stressBin64 fl_0_34).toRat ≠ fl_0_3.toRat := by
  have hd3 : fl_0_3.floorDiv fl_0_1 = ⟨2, 0⟩ := by
    have hf : ⌊fl_0_3.toRat / fl_0_1.toRat⌋ = 2 := by
      norm_num [B64.toRat, fl_0_3, fl_0_1]
    simp [B64.floorDiv, hf]
  have hd34 : fl_0_34.floorDiv fl_0_1 = ⟨3, 0⟩ := by
    have hf : ⌊fl_0_34.toRat / fl_0_1.toRat⌋ = 3 := by
      norm_num [B64.toRat, fl_0_34, fl_0_1]
    simp [B64.floorDiv, hf]
  have hm3 : B64.mul ⟨2, 0⟩ fl_0_1 = ⟨7205759403792794, -55⟩ := by decide
  have hm34 : B64.mul ⟨3, 0⟩ fl_0_1 = ⟨5404319552844596, -54⟩ := by decide
  refine ⟨?_, ?_, ?_, ?_⟩ <;>
    simp only [stressBin64, hd3, hd34, hm3, hm34] <;>
      norm_num [B64.toRat, fl_0_2, fl_0_3]

/-- C4 (amended): the bins are computed by binary64 floor division and
multiplication.  The temperature side is exact: `22 → 20.0`, `20 → 20.0`,
and in general `temp_bin = ⌊t/5⌋·5` with `temp_bin ≤ t < temp_bin + 5`
whenever that product fits in 53 bits.  The stress side inherits the float
error of the literal `0.1`: `0.34` bins to `0.30000000000000004` and the
boundary value `0.3` bins to `0.2`, so stress boundary values need not bin
to themselves. -/
theorem stress_binning_binary64_semantics :
    ((tempBin64 fl_22).toRat = 20 ∧ (tempBin64 fl_20).toRat = 20)
    ∧ ((stressBin64 fl_0_34).toRat = (5404319552844596 : ℚ) / 2 ^ 54
        ∧ (stressBin64 fl_0_3).toRat = fl_0_2.toRat)
    ∧ (∀ s : B64, (s.floorDiv fl_0_1).toRat = (⌊s.toRat / fl_0_1.toRat⌋ : ℚ))
    ∧ (∀ t : B64, (⌊t.toRat / 5⌋ * 5).natAbs < 2 ^ 53 →
        (tempBin64 t).toRat = (⌊t.toRat / 5⌋ : ℚ) * 5
        ∧ (tempBin64 t).toRat ≤ t.toRat ∧ t.toRat < (tempBin64 t).toRat + 5) := by
  refine ⟨?_, ?_, ?_, ?_⟩
  · have hd22 : fl_22.floorDiv fl_5 = ⟨4, 0⟩ := by
      have hf : ⌊fl_22.toRat / fl_5.toRat⌋ = 4 := by
        norm_num [B64.toRat, fl_22, fl_5]
      simp [B64.floorDiv, hf]
    have hd20 : fl_20.floorDiv fl_5 = ⟨4, 0⟩ := by
      have hf : ⌊fl_20.toRat / fl_5.toRat⌋ = 4 := by
        norm_num [B64.toRat, fl_20, fl_5]
      simp [B64.floorDiv, hf]
    have hm : B64.mul ⟨4, 0⟩ fl_5 = ⟨20, 0⟩ := by decide
    constructor <;> simp only [tempBin64, hd22, hd20, hm] <;> norm_num [B64.toRat]
  · have hd3 : fl_0_3.floorDiv fl_0_1 = ⟨2, 0⟩ := by
      have hf : ⌊fl_0_3.toRat / fl_0_1.toRat⌋ = 2 := by
        norm_num [B64.toRat, fl_0_3, fl_0_1]
      simp [B64.floorDiv, hf]
    have hd34 : fl_0_34.floorDiv fl_0_1 = ⟨3, 0⟩ := by
      have hf : ⌊fl_0_34.toRat / fl_0_1.toRat⌋ = 3 := by
        norm_num [B64.toRat, fl_0_34, fl_0_1]
      simp [B64.floorDiv, hf]
    have hm3 : B64.mul ⟨2, 0⟩ fl_0_1 = ⟨7205759403792794, -55⟩ := by decide
    have hm34 : B64.mul ⟨3, 0⟩ fl_0_1 = ⟨5404319552844596, -54⟩ := by decide
    constructor <;> simp only [stressBin64, hd3, hd34, hm3, hm34] <;>
      norm_num [B64.toRat, fl_0_2]
  · intro s
    simp [B64.floorDiv, B64.toRat]
  · intro t h
    have hstruct : t.floorDiv fl_5 = ⟨⌊t.toRat / 5⌋, 0⟩ := by
      have h5 : fl_5.toRat = 5 := by norm_num [B64.toRat, fl_5]
      simp [B64.floorDiv, h5]
    have hval : (tempBin64 t).toRat = (⌊t.toRat / 5⌋ : ℚ) * 5 := by
      rw [tempBin64, hstruct]
      simp only [fl_5]
      rw [mul_int_exact _ _ h]
      push_cast
      ring
    have hfl : ((⌊t.toRat / 5⌋ : ℚ)) ≤ t.toRat / 5 := Int.floor_le (t.toRat / 5)
    have hfu : t.toRat / 5 < (⌊t.toRat / 5⌋ : ℚ) + 1 := Int.lt_floor_add_one (t.toRat / 5)
    refine ⟨hval, ?_, ?_⟩
    · rw [hval]; linarith
    · rw [hval]; linarith

/-- witness for `stress_binning_binary64_semantics`: the temperature 22
satisfies the exactness bound and bins to `⌊22/5⌋·5 = 20` inside the
half-open window. -/
theorem stress_binning_binary64_semantics_witness :
    ((⌊fl_22.toRat / 5⌋ * 5).natAbs < 2 ^ 53)
    ∧ (tempBin64 fl_22).toRat = (⌊fl_22.toRat / 5⌋ : ℚ) * 5
    ∧ (tempBin64 fl_22).toRat ≤ fl_22.toRat
    ∧ fl_22.toRat < (tempBin64 fl_22).toRat + 5 := by
  have hb : (⌊fl_22.toRat / 5⌋ * 5).natAbs < 2 ^ 53 := by
    norm_num [B64.toRat, fl_22]
  have h := stress_binning_binary64_semantics.2.2.2 fl_22 hb
  exact ⟨hb, h.1, h.2.1, h.2.2⟩

/-- C1: the yield-history filter produces exactly the rows whose
`parcelle_id` equals the selection (same multiplicity, whole rows hence all
columns preserved), sorted ascending by date; a selection matching no row
yields the empty result; and on the spec example A's rows with dates
`[3,1,2]` come back sorted `[1,2,3]`. -/
theorem yield_filter_contract :
    (∀ (full : List YieldRow) (sel : String),
        List.Sorted yieldDateLe (filterYieldHistory full sel)
        ∧ (∀ r : YieldRow, (filterYieldHistory full sel).count r
              = if r.parcelle_id = sel then full.count r else 0)
        ∧ ((∀ r ∈ full, r.parcelle_id ≠ sel) → filterYieldHistory full sel = []))
    ∧ filterYieldHistory exFullYield "A" = [⟨"A", 1, 7⟩, ⟨"A", 2, 8⟩, ⟨"A", 3, 9⟩] := by
  refine ⟨fun full sel => ⟨List.sorted_insertionSort yieldDateLe _, fun r => ?_, fun h => ?_⟩, rfl⟩
  · have hperm := List.perm_insertionSort yieldDateLe (full.filter (fun r => r.parcelle_id == sel))
    rw [filterYieldHistory, hperm.count_eq]
    by_cases hp : r.parcelle_id = sel
    · rw [List.count_filter (by simpa using hp), if_pos hp]
    · rw [if_neg hp, List.count_eq_zero]
      simp [List.mem_filter, hp]
  · rw [filterYieldHistory, List.filter_eq_nil_iff.mpr (by simpa using h)]
    rfl

/-- witness for `yield_filter_contract`: a full source containing only
parcel B, filtered on the absent parcel A, gives the empty result. -/
theorem yield_filter_contract_witness :
    (∀ r ∈ ([⟨"B", 1, 5⟩] : List YieldRow), r.parcelle_id ≠ "A")
      ∧ filterYieldHistory [⟨"B", 1, 5⟩] "A" = [] :=
  ⟨by simp, (yield_filter_contract.1 [⟨"B", 1, 5⟩] "A").2.2 (by simp)⟩
/-- centred-product sums expand into raw sums (same-length columns). -/
theorem sum_zipWith_centered (a b : ℚ) :
    ∀ (xs ys : List ℚ), xs.length = ys.length →
      (List.zipWith (fun x y => (x - a) * (y - b)) xs ys).sum
        = sumXY xs ys - a * ys.sum - b * xs.sum + (xs.length : ℚ) * (a * b)
  | [], [], _ => by simp [sumXY]
  | [], _ :: _, h => by simp at h
  | _ :: _, [], h => by simp at h
  | x :: xs, y :: ys, h => by
    have h' : xs.length = ys.length := by simpa using h
    have ih := sum_zipWith_centered a b xs ys h'
    simp only [List.zipWith_cons_cons, List.sum_cons, sumXY] at ih ⊢
    rw [ih]
    push_cast [List.length_cons]
    ring

/-- centred-square sums expand into raw sums. -/
theorem sum_sq_centered (a : ℚ) (xs : List ℚ) :
    (xs.map (fun x => (x - a) ^ 2)).sum
      = sumSq xs - 2 * a * xs.sum + (xs.length : ℚ) * a ^ 2 := by
  induction xs with
  | nil => simp [sumSq]
  | cons x xs ih =>
    simp only [List.map_cons, List.sum_cons, sumSq] at ih ⊢
    rw [ih]
    push_cast [List.length_cons]
    ring

/-- two fractions over the same non-zero denominator divide like their
numerators (also when the second numerator is zero: both sides are the
division-by-zero junk value 0). -/
theorem div_div_same_den (A B c : ℚ) (hc : c ≠ 0) : (A / c) / (B / c) = A / B := by
  rcases eq_or_ne B 0 with hB | hB
  · simp [hB]
  · field_simp

/-- the spec's covariance over explicit sums. -/
theorem covSpec_eq (xs ys : List ℚ) (hlen : xs.length = ys.length) :
    covSpec xs ys
      = (sumXY xs ys - mean xs * ys.sum - mean ys * xs.sum
          + (xs.length : ℚ) * (mean xs * mean ys)) / (xs.length : ℚ) := by
  rw [covSpec, mean, List.length_zipWith, hlen, min_self,
    sum_zipWith_centered (mean xs) (mean ys) xs ys hlen, hlen]

/-- the spec's variance over explicit sums. -/
theorem varSpec_eq (xs : List ℚ) :
    varSpec xs
      = (sumSq xs - 2 * mean xs * xs.sum + (xs.length : ℚ) * (mean xs) ^ 2)
          / (xs.length : ℚ) := by
  rw [varSpec, mean, List.length_map, sum_sq_centered (mean xs) xs]

/-- the normal-equation slope of the source equals the spec's
`cov(x,y)/var(x)` on same-length, non-empty columns. -/
theorem codeSlope_eq_olsSlope (xs ys : List ℚ) (hlen : xs.length = ys.length)
    (hne : xs ≠ []) : codeSlope xs ys = olsSlope xs ys := by
  have hl0 : xs.length ≠ 0 := by simpa [List.length_eq_zero] using hne
  have hn0 : ((xs.length : ℚ)) ≠ 0 := Nat.cast_ne_zero.mpr hl0
  have hcov : covSpec xs ys
      = ((xs.length : ℚ) * sumXY xs ys - xs.sum * ys.sum) / (xs.length : ℚ) ^ 2 := by
    have hy0 : ((ys.length : ℚ)) ≠ 0 := by rw [← hlen]; exact hn0
    rw [covSpec_eq xs ys hlen]
    simp only [mean, hlen]
    field_simp
    ring
  have hvar : varSpec xs
      = ((xs.length : ℚ) * sumSq xs - xs.sum * xs.sum) / (xs.length : ℚ) ^ 2 := by
    rw [varSpec_eq xs]
    simp only [mean]
    field_simp
    ring
  rw [codeSlope, olsSlope, hcov, hvar, div_div_same_den _ _ _ (pow_ne_zero 2 hn0)]

/-- C2: on a parcel history that passes the source's guard and keeps at
least two distinct years after deduplication, `_calculate_yield_trend`
returns exactly the closed-form single-predictor OLS fit of yield against
year — `slope = cov(x,y)/var(x)`, `intercept = mean(y) − slope·mean(x)`,
`variation = slope/mean(y)` (0 for zero mean) — and on the spec example
(years 2020..2022, yields 5,6,7) it returns slope 1, intercept −2015,
relative variation 1/6. -/
theorem trend_matches_closed_form_ols :
    (∀ (hist : List HistRec) (pid : String),
        ¬(trendFiltered hist pid = []
            ∨ nunique ((trendFiltered hist pid).map (fun r => r.rendement_estime)) < 2) →
        2 ≤ (trendData hist pid).length →
        calculate_yield_trend hist pid
          = ⟨olsSlope (trendXs hist pid) (trendYs hist pid),
              olsIntercept (trendXs hist pid) (trendYs hist pid),
              if mean (trendYs hist pid) = 0 then 0
              else olsSlope (trendXs hist pid) (trendYs hist pid)
                / mean (trendYs hist pid)⟩)
    ∧ calculate_yield_trend exTrendHist "P1" = ⟨1, -2015, 1/6⟩ := by
  constructor
  · intro hist pid hguard hcard
    have hlen : (trendXs hist pid).length = (trendYs hist pid).length := by
      simp [trendXs, trendYs]
    have hne : trendXs hist pid ≠ [] := by
      have hx : (trendXs hist pid).length ≠ 0 := by
        simp only [trendXs, List.length_map]
        omega
      simpa [List.length_eq_zero] using hx
    have hslope := codeSlope_eq_olsSlope _ _ hlen hne
    simp only [calculate_yield_trend]
    rw [if_neg hguard, hslope]
    simp only [TrendResult.mk.injEq, olsIntercept]
    refine ⟨trivial, trivial, ?_⟩
    by_cases hm : mean (trendYs hist pid) = 0 <;> simp [hm]
  · have hg : ¬(trendFiltered exTrendHist "P1" = []
        ∨ nunique ((trendFiltered exTrendHist "P1").map
            (fun r => r.rendement_estime)) < 2) := by
      refine not_or.mpr ⟨?_, ?_⟩
      · simp [trendFiltered, exTrendHist]
      · norm_num [trendFiltered, nunique, dedupByKey, dedupByKeyAux, exTrendHist]
    simp only [calculate_yield_trend]
    rw [if_neg hg]
    norm_num [trendData, trendXs, trendYs, trendFiltered, dedupByKey, dedupByKeyAux,
      List.insertionSort, List.orderedInsert, histYearLe, exTrendHist, codeSlope,
      sumXY, sumSq, mean, TrendResult.mk.injEq]

/-- witness for `trend_matches_closed_form_ols`: the spec example satisfies
both hypotheses and gets the closed-form fit. -/
theorem trend_matches_closed_form_ols_witness :
    (¬(trendFiltered exTrendHist "P1" = []
        ∨ nunique ((trendFiltered exTrendHist "P1").map
            (fun r => r.rendement_estime)) < 2))
      ∧ 2 ≤ (trendData exTrendHist "P1").length
      ∧ calculate_yield_trend exTrendHist "P1"
          = ⟨olsSlope (trendXs exTrendHist "P1") (trendYs exTrendHist "P1"),
              olsIntercept (trendXs exTrendHist "P1") (trendYs exTrendHist "P1"),
              if mean (trendYs exTrendHist "P1") = 0 then 0
              else olsSlope (trendXs exTrendHist "P1") (trendYs exTrendHist "P1")
                / mean (trendYs exTrendHist "P1")⟩ := by
  have h1 : ¬(trendFiltered exTrendHist "P1" = []
      ∨ nunique ((trendFiltered exTrendHist "P1").map
          (fun r => r.rendement_estime)) < 2) := by
    refine not_or.mpr ⟨?_, ?_⟩
    · simp [trendFiltered, exTrendHist]
    · norm_num [trendFiltered, nunique, dedupByKey, dedupByKeyAux, exTrendHist]
  have h2 : 2 ≤ (trendData exTrendHist "P1").length := by
    norm_num [trendData, trendFiltered, dedupByKey, dedupByKeyAux, exTrendHist,
      List.insertionSort, List.orderedInsert, histYearLe]
  exact ⟨h1, h2, trend_matches_closed_form_ols.1 exTrendHist "P1" h1 h2⟩

/-- a list whose keys are all already seen deduplicates to nothing. -/
theorem dedupByKeyAux_eq_nil {α κ : Type} [DecidableEq κ] (key : α → κ) :
    ∀ (seen : List κ) (l : List α), (∀ x ∈ l, key x ∈ seen) →
      dedupByKeyAux key seen l = []
  | _, [], _ => rfl
  | seen, r :: rs, h => by
    simp only [dedupByKeyAux, if_pos (h r (List.mem_cons_self r rs))]
    exact dedupByKeyAux_eq_nil key seen rs (fun x hx => h x (List.mem_cons_of_mem r hx))

/-- a constant column has at most one distinct value. -/
theorem nunique_le_one_of_const (l : List ℚ) (h : ∀ x ∈ l, ∀ y ∈ l, x = y) :
    nunique l ≤ 1 := by
  cases l with
  | nil => simp [nunique, dedupByKey, dedupByKeyAux]
  | cons c l' =>
    have hrest : dedupByKeyAux (fun x => x) [c] l' = [] := by
      refine dedupByKeyAux_eq_nil _ _ _ ?_
      intro x hx
      have hx' := h x (List.mem_cons_of_mem c hx) c (List.mem_cons_self c l')
      simp [hx']
    simp [nunique, dedupByKey, dedupByKeyAux, hrest]

/-- counterexample to C3 as stated: the history `[(P,2020,5), (P,2020,6)]`
has a single distinct year (fewer than 2), yet `_calculate_yield_trend`
passes its guard — which counts distinct yields, not distinct years — and
returns `{slope 0, intercept 5, variation 0}`, not the zero default. -/
theorem trend_single_year_not_zero_default :
    (trendData oneYearTwoYields "P").length < 2
      ∧ calculate_yield_trend oneYearTwoYields "P" = ⟨0, 5, 0⟩
      ∧ calculate_yield_trend oneYearTwoYields "P" ≠ ⟨0, 0, 0⟩ := by
  have hg : ¬(trendFiltered oneYearTwoYields "P" = []
      ∨ nunique ((trendFiltered oneYearTwoYields "P").map
          (fun r => r.rendement_estime)) < 2) := by
    refine not_or.mpr ⟨?_, ?_⟩
    · simp [trendFiltered, oneYearTwoYields]
    · norm_num [trendFiltered, nunique, dedupByKey, dedupByKeyAux, oneYearTwoYields]
  have hval : calculate_yield_trend oneYearTwoYields "P" = ⟨0, 5, 0⟩ := by
    simp only [calculate_yield_trend]
    rw [if_neg hg]
    norm_num [trendData, trendXs, trendYs, trendFiltered, dedupByKey, dedupByKeyAux,
      List.insertionSort, List.orderedInsert, histYearLe, oneYearTwoYields, codeSlope,
      sumXY, sumSq, mean, TrendResult.mk.injEq]
  refine ⟨?_, hval, ?_⟩
  · norm_num [trendData, trendFiltered, dedupByKey, dedupByKeyAux, oneYearTwoYields,
      List.insertionSort, List.orderedInsert, histYearLe]
  · rw [hval]
    norm_num [TrendResult.mk.injEq]

/-- C3 (amended): `_calculate_yield_trend` returns the zero-trend default
`{0,0,0}` exactly when its guard fires: an empty filtered history or
constant yield values (fewer than two distinct yields).  A single distinct
year alone does not trigger the default (see
`trend_single_year_not_zero_default`). -/
theorem trend_degenerate_zero_default :
    ∀ (hist : List HistRec) (pid : String),
      (∀ r ∈ trendFiltered hist pid, ∀ s ∈ trendFiltered hist pid,
          r.rendement_estime = s.rendement_estime) →
      calculate_yield_trend hist pid = ⟨0, 0, 0⟩ := by
  intro hist pid hconst
  have hcv : ∀ x ∈ (trendFiltered hist pid).map (fun t => t.rendement_estime),
      ∀ y ∈ (trendFiltered hist pid).map (fun t => t.rendement_estime), x = y := by
    intro x hx y hy
    obtain ⟨tx, htx, rfl⟩ := List.mem_map.1 hx
    obtain ⟨ty, hty, rfl⟩ := List.mem_map.1 hy
    exact hconst tx htx ty hty
  have hlt : nunique ((trendFiltered hist pid).map
      (fun r => r.rendement_estime)) < 2 :=
    lt_of_le_of_lt (nunique_le_one_of_const _ hcv) one_lt_two
  simp only [calculate_yield_trend]
  rw [if_pos (Or.inr hlt)]

/-- witness for `trend_degenerate_zero_default`: a constant-yield two-year
history gets the exact zero default. -/
theorem trend_degenerate_zero_default_witness :
    (∀ r ∈ trendFiltered constYieldHist "P", ∀ s ∈ trendFiltered constYieldHist "P",
        r.rendement_estime = s.rendement_estime)
      ∧ calculate_yield_trend constYieldHist "P" = ⟨0, 0, 0⟩ := by
  have h : ∀ r ∈ trendFiltered constYieldHist "P",
      ∀ s ∈ trendFiltered constYieldHist "P",
        r.rendement_estime = s.rendement_estime := by
    norm_num [trendFiltered, constYieldHist]
  exact ⟨h, trend_degenerate_zero_default constYieldHist "P" h⟩

/-- membership survives key-based deduplication. -/
theorem mem_of_mem_dedupByKeyAux {α κ : Type} [DecidableEq κ] (key : α → κ) :
    ∀ (seen : List κ) (l : List α) (x : α), x ∈ dedupByKeyAux key seen l → x ∈ l
  | _, [], x, h => by simp [dedupByKeyAux] at h
  | seen, r :: rs, x, h => by
    by_cases hk : key r ∈ seen
    · simp only [dedupByKeyAux, if_pos hk] at h
      exact List.mem_cons_of_mem r (mem_of_mem_dedupByKeyAux key seen rs x h)
    · simp only [dedupByKeyAux, if_neg hk] at h
      rcases List.mem_cons.1 h with h1 | h2
      · exact h1 ▸ List.mem_cons_self r rs
      · exact List.mem_cons_of_mem r (mem_of_mem_dedupByKeyAux key _ rs x h2)

/-- every member of a list of naturals is bounded by its max fold. -/
theorem le_foldr_max (l : List ℕ) (a : ℕ) (h : a ∈ l) : a ≤ l.foldr max 0 := by
  induction l with
  | nil => simp at h
  | cons b l ih =>
    simp only [List.foldr_cons]
    rcases List.mem_cons.1 h with rfl | h2
    · exact le_max_left _ _
    · exact le_trans (ih h2) (le_max_right _ _)

/-- C5: every group of the stress matrix carries
`normalized_count = (number of rows of the group) / (largest group size)`,
a value in `(0, 1]`; on a dataset with group sizes `[2,4,8]` the
normalised counts are `[1/4, 1/2, 1]`. -/
theorem stress_matrix_counts_normalized :
    (∀ (rows : List FeatureRow) (k : String × ℚ × ℚ), k ∈ stressGroups rows →
        normalizedCount rows k
            = ((rows.filter (fun r => decide (stressKey r = k))).length : ℚ)
                / (maxCount rows : ℚ)
          ∧ 0 < normalizedCount rows k ∧ normalizedCount rows k ≤ 1)
    ∧ (stressGroups exStressRows).map (normalizedCount exStressRows)
        = [1/4, 1/2, 1] := by
  constructor
  · intro rows k hk
    have hkrow : ∃ r ∈ rows, stressKey r = k := by
      have hmem : k ∈ rows.map stressKey :=
        mem_of_mem_dedupByKeyAux _ _ _ _ hk
      obtain ⟨r, hr, hrk⟩ := List.mem_map.1 hmem
      exact ⟨r, hr, hrk⟩
    have hcpos : 0 < groupCount rows k := by
      rw [groupCount]
      refine List.countP_pos_iff.2 ?_
      obtain ⟨r, hr, hrk⟩ := hkrow
      exact ⟨r, hr, by simp [hrk]⟩
    have hle : groupCount rows k ≤ maxCount rows :=
      le_foldr_max _ _ (List.mem_map_of_mem _ hk)
    have hmpos : 0 < maxCount rows := lt_of_lt_of_le hcpos hle
    refine ⟨?_, ?_, ?_⟩
    · rw [normalizedCount, groupCount, List.countP_eq_length_filter]
    · exact div_pos (by exact_mod_cast hcpos) (by exact_mod_cast hmpos)
    · rw [normalizedCount, div_le_one (by exact_mod_cast hmpos)]
      exact_mod_cast hle
  · have h0t : tempBin 0 = 0 := by norm_num [tempBin]
    have h0s : stressBin 0 = 0 := by norm_num [stressBin]
    have hkey : ∀ p, stressKey (plainRow p) = (p, 0, 0) := by
      intro p
      simp [-Prod.mk_zero_zero, stressKey, plainRow, h0t, h0s]
    have hgroups : stressGroups exStressRows = [("A", 0, 0), ("B", 0, 0), ("C", 0, 0)] := by
      simp [-Prod.mk_zero_zero, stressGroups, exStressRows, hkey, dedupByKey, dedupByKeyAux]
    have hcA : groupCount exStressRows ("A", 0, 0) = 2 := by
      simp [-Prod.mk_zero_zero, groupCount, exStressRows, hkey, List.countP_cons,
        List.countP_nil]
    have hcB : groupCount exStressRows ("B", 0, 0) = 4 := by
      simp [-Prod.mk_zero_zero, groupCount, exStressRows, hkey, List.countP_cons,
        List.countP_nil]
    have hcC : groupCount exStressRows ("C", 0, 0) = 8 := by
      simp [-Prod.mk_zero_zero, groupCount, exStressRows, hkey, List.countP_cons,
        List.countP_nil]
    have hmax : maxCount exStressRows = 8 := by
      rw [maxCount, hgroups]
      simp [-Prod.mk_zero_zero, List.map_cons, List.map_nil, hcA, hcB, hcC]
    rw [hgroups]
    simp [-Prod.mk_zero_zero, List.map_cons, List.map_nil, normalizedCount, hcA, hcB,
      hcC, hmax]
    norm_num

/-- witness for `stress_matrix_counts_normalized`: the group of parcel A in
the concrete dataset is a real group with a normalised count in `(0, 1]`. -/
theorem stress_matrix_counts_normalized_witness :
    (("A", tempBin 0, stressBin 0) ∈ stressGroups exStressRows)
      ∧ 0 < normalizedCount exStressRows ("A", tempBin 0, stressBin 0)
      ∧ normalizedCount exStressRows ("A", tempBin 0, stressBin 0) ≤ 1 := by
  have h0t : tempBin 0 = 0 := by norm_num [tempBin]
  have h0s : stressBin 0 = 0 := by norm_num [stressBin]
  have hkey : ∀ p, stressKey (plainRow p) = (p, 0, 0) := by
    intro p
    simp [-Prod.mk_zero_zero, stressKey, plainRow, h0t, h0s]
  have hmem : (("A", tempBin 0, stressBin 0)) ∈ stressGroups exStressRows := by
    rw [h0t, h0s]
    simp [-Prod.mk_zero_zero, stressGroups, exStressRows, hkey, dedupByKey, dedupByKeyAux]
  have h := stress_matrix_counts_normalized.1 exStressRows _ hmem
  exact ⟨hmem, h.2.1, h.2.2⟩

/-- C6 (evidence): on a risk column whose values are all equal, the
unguarded min-max normalisation of `add_risk_heatmap` divides zero by zero
for every point — every weight is the NaN marker, not a defined constant. -/
theorem risk_heatmap_equal_values_undefined :
    add_risk_heatmap_weights [1/2, 1/2] = [none, none] := by
  norm_num [add_risk_heatmap_weights, riskMin, riskMax]

/-- C8: each operation answers a missing required column with a `None`
result and a non-empty diagnostic instead of propagating an exception. -/
theorem missing_columns_yield_default_and_diagnostic :
    (∀ t : FeaturesTable,
        ("temperature" ∉ t.cols ∨ "stress_hydrique" ∉ t.cols) →
        (create_stress_matrix t).1 = none ∧ (create_stress_matrix t).2 ≠ [])
      ∧ (∀ t : FeaturesTable, ∀ c ∈ requiredSourceCols, c ∉ t.cols →
        (create_data_sources t).1 = none ∧ (create_data_sources t).2 ≠ [])
      ∧ (∀ t : FeaturesTable, ∀ c ∈ requiredLayerCols, c ∉ t.cols →
        (add_yield_history_layer t).1 = none ∧ (add_yield_history_layer t).2 ≠ []) := by
  refine ⟨?_, ?_, ?_⟩
  · intro t h
    have hcond : ¬("temperature" ∈ t.cols ∧ "stress_hydrique" ∈ t.cols) := by
      rcases h with h | h
      · exact fun hc => h hc.1
      · exact fun hc => h hc.2
    rw [create_stress_matrix, if_neg hcond]
    exact ⟨rfl, by simp⟩
  · intro t c hc hnc
    have hcond : ¬ ∀ c ∈ requiredSourceCols, c ∈ t.cols := fun hall => hnc (hall c hc)
    rw [create_data_sources, if_neg hcond]
    exact ⟨rfl, by simp⟩
  · intro t c hc hnc
    have hsome : (requiredLayerCols.find? (fun c => decide (c ∉ t.cols))).isSome := by
      rw [List.find?_isSome]
      exact ⟨c, hc, by simpa using hnc⟩
    rcases hfind : requiredLayerCols.find? (fun c => decide (c ∉ t.cols)) with _ | c'
    · rw [hfind] at hsome
      simp at hsome
    · have hfind' := hfind
      simp only [decide_not] at hfind'
      simp [add_yield_history_layer, add_yield_history_layer_inner, hfind']

/-- witness for `missing_columns_yield_default_and_diagnostic`: on a table
with no columns at all, all three operations report and default. -/
theorem missing_columns_witness :
    ((create_stress_matrix ⟨[], []⟩).1 = none ∧ (create_stress_matrix ⟨[], []⟩).2 ≠ [])
      ∧ ((create_data_sources ⟨[], []⟩).1 = none ∧ (create_data_sources ⟨[], []⟩).2 ≠ [])
      ∧ ((add_yield_history_layer ⟨[], []⟩).1 = none
          ∧ (add_yield_history_layer ⟨[], []⟩).2 ≠ []) :=
  ⟨missing_columns_yield_default_and_diagnostic.1 ⟨[], []⟩ (Or.inl (by simp)),
    missing_columns_yield_default_and_diagnostic.2.1 ⟨[], []⟩ "parcelle_id"
      (by simp [requiredSourceCols]) (by simp),
    missing_columns_yield_default_and_diagnostic.2.2 ⟨[], []⟩ "parcelle_id"
      (by simp [requiredLayerCols]) (by simp)⟩

/-- C9: the popup formatter lists crops newest-first — the deduplicated,
sorted history is reverse-chronological for every input — and on
`[(2021, wheat), (2022, corn)]` it emits exactly
`["2022: corn", "2021: wheat"]`. -/
theorem recent_crops_reverse_chronological :
    (∀ history : List CropRec, List.Sorted cropDateGe (recentCropsSorted history))
      ∧ format_recent_crops [⟨2021, "wheat"⟩, ⟨2022, "corn"⟩]
          = ["2022: corn", "2021: wheat"] :=
  ⟨fun _ => List.sorted_insertionSort cropDateGe _, rfl⟩

/-- C7: a selection-change callback run fully replaces the previous
filtered output — the result is the filter of the full source alone, and
running the same selection twice leaves the state fixed (no accumulation),
for both the yield-history and the stress-matrix callbacks. -/
theorem selection_filter_idempotent_replaces :
    (∀ (sel : String) (s : DashboardState),
        run_yield_callback sel (run_yield_callback sel s) = run_yield_callback sel s
        ∧ (run_yield_callback sel s).yield_source
            = filterYieldHistory s.full_yield_source sel)
      ∧ (∀ (sel : String) (s : StressState),
        run_stress_callback sel (run_stress_callback sel s) = run_stress_callback sel s
        ∧ (run_stress_callback sel s).stress_source
            = (s.full_stress_source.filter (fun r => r.parcelle_id == sel)).map
                toStressCell) :=
  ⟨fun _ _ => ⟨rfl, rfl⟩, fun _ _ => ⟨rfl, rfl⟩⟩

/-- C10: the filter callbacks write only the filtered output source, never
the full source, and the trend estimator hands the manager back unchanged
(it works on a copy of the yield-history table). -/
theorem upstream_data_not_mutated :
    (∀ (sel : String) (s : DashboardState),
        (run_yield_callback sel s).full_yield_source = s.full_yield_source)
      ∧ (∀ (sel : String) (s : StressState),
        (run_stress_callback sel s).full_stress_source = s.full_stress_source)
      ∧ (∀ (m : ManagerState) (pid : String),
        (run_calculate_yield_trend m pid).1 = m) :=
  ⟨fun _ _ => rfl, fun _ _ => rfl, fun _ _ => rfl⟩
